import Mathlib

/-
Verification of the statistical core of `simulate_traffic.py` (speed_limit_finder).

The numeric values of the program are IEEE doubles; they are embedded here as
rationals (ℚ), the standard exact model for the arithmetic the claims are about.
The one place where IEEE behaviour differs observably from exact arithmetic is
division by a zero standard deviation in `remove_outliers`: numpy produces NaN
z-scores there, and every comparison against NaN is false.  That behaviour is
embedded explicitly (see `absZscoreGe` / `absZscoreLt`).
-/

namespace SpeedLimitFinder

/-- `np.mean(speeds)`: the arithmetic mean, sum divided by length.  (For the
empty list numpy yields NaN; over ℚ the division by zero yields 0.  All uses
below are guarded so this difference is never observable.) -/
def npMean (speeds : List ℚ) : ℚ :=
  speeds.sum / speeds.length

/-- The square of `np.std(speeds)` (population standard deviation, `ddof = 0`):
the mean of the squared deviations from the mean.  The standard deviation
itself is `Real.sqrt` of this value, which is irrational in general, so the
embedding carries the variance and compares squares (see `absZscoreGe`). -/
def npVar (speeds : List ℚ) : ℚ :=
  (speeds.map (fun x => (x - npMean speeds) ^ 2)).sum / speeds.length

/-- The elementwise test `np.abs(z_scores) >= z_threshold` from
`remove_outliers`, where `z_scores = (x - mean) / std` and `std = √v`:

* when `v = 0`, numpy's division yields NaN and the comparison is false;
* when `v ≠ 0` and `z ≤ 0`, the comparison `|x-m|/√v ≥ z` always holds;
* when `v ≠ 0` and `z > 0`, both sides are nonnegative, and the comparison
  holds iff it holds after squaring: `z² · v ≤ (x-m)²`.

`absZscoreGe_iff_real` below proves this encoding equal to the real-number
comparison whenever the variance is nonzero. -/
def absZscoreGe (m v z x : ℚ) : Bool :=
  decide (v ≠ 0) && (decide (z ≤ 0) || decide (z ^ 2 * v ≤ (x - m) ^ 2))

/-- The elementwise test `np.abs(z_scores) < z_threshold` from
`remove_outliers`, encoded like `absZscoreGe` (false on NaN, i.e. when the
variance is zero). -/
def absZscoreLt (m v z x : ℚ) : Bool :=
  decide (v ≠ 0) && (decide (0 < z) && decide ((x - m) ^ 2 < z ^ 2 * v))

/-- `remove_outliers(speeds, z_threshold)` from `simulate_traffic.py`:
computes mean and population standard deviation, forms the z-scores
`(speeds - mean) / std_dev`, and returns the pair
`(speeds[np.abs(z_scores) < z_threshold], speeds[np.abs(z_scores) >= z_threshold])`
as `(cleaned_speeds, outliers)` — boolean-mask selection on an array is an
order-preserving filter.  The call site in `main` uses `z_threshold = 3`. -/
def remove_outliers (speeds : List ℚ) (z_threshold : ℚ) : List ℚ × List ℚ :=
  (speeds.filter (fun x => absZscoreLt (npMean speeds) (npVar speeds) z_threshold x),
   speeds.filter (fun x => absZscoreGe (npMean speeds) (npVar speeds) z_threshold x))

/-- `find_vehicles_above_threshold(speeds, threshold)` from
`simulate_traffic.py`: the boolean-mask selection `speeds[speeds > threshold]`,
an order-preserving filter keeping the elements strictly above the
threshold. -/
def find_vehicles_above_threshold (speeds : List ℚ) (threshold : ℚ) : List ℚ :=
  speeds.filter (fun x => decide (threshold < x))

/-- Ascending sort of the sample, as `np.percentile` performs internally. -/
def npSort (speeds : List ℚ) : List ℚ :=
  speeds.insertionSort (· ≤ ·)

/-- Linear interpolation between adjacent order statistics of `a` at the
fractional index `idx`: with `l = ⌊idx⌋` and `h = ⌈idx⌉`,
`a[l] + (idx - l) * (a[h] - a[l])`. -/
def interpAt (a : List ℚ) (idx : ℚ) : ℚ :=
  a.getD ⌊idx⌋.toNat 0 + (idx - ⌊idx⌋) * (a.getD ⌈idx⌉.toNat 0 - a.getD ⌊idx⌋.toNat 0)

/-- Modelled from the spec: `np.percentile(a, q)` (third-party numpy, not part
of this repository's sources) with the default `linear` interpolation method —
sort the data and interpolate at fractional index `q/100 * (n - 1)`.  It
rejects `q` outside `[0, 100]` and fails on an empty input array. -/
def np_percentile (speeds : List ℚ) (q : ℚ) : Except String ℚ :=
  if q < 0 ∨ 100 < q then .error "Percentiles must be in the range [0, 100]"
  else if speeds.isEmpty then .error "zero-size array to reduction operation"
  else .ok (interpAt (npSort speeds) (q * ((speeds.length : ℚ) - 1) / 100))

/-- `calculate_percentile(speeds, nth_percentile)` from `simulate_traffic.py`:
a direct delegation to `np.percentile`. -/
def calculate_percentile (speeds : List ℚ) (nth_percentile : ℚ) : Except String ℚ :=
  np_percentile speeds nth_percentile

/-- Modelled from the spec: `np.random.seed(seed)` (third-party numpy).  It
replaces the global generator state: with an explicit seed the new state is a
function of the seed alone (the Mersenne Twister initialisation, abstracted
here as the seed value itself — only its functional dependence matters); with
`None` it reseeds from operating-system entropy, modelled as an exogenous
`entropy` input. -/
def np_random_seed (seed : Option ℕ) (entropy : ℕ) (state : ℕ) : ℕ :=
  match seed with
  | some s => s
  | none => entropy

/-- Modelled from the spec: `np.random.normal(loc, scale, n)` (third-party
numpy) draws `n` standard-normal variates from the current generator state and
returns `loc + scale * variate` for each.  The variate stream `draw` (Mersenne
Twister plus the normal transform) is kept abstract; it is a deterministic
function of the state and the draw index, which is all the claim depends
on. -/
def np_random_normal (draw : ℕ → ℕ → ℚ) (state : ℕ) (loc scale : ℚ) (n : ℕ) : List ℚ :=
  (List.range n).map (fun i => loc + scale * draw state i)

/-- `generate_speed_data(num_vehicles, mean_speed, std_dev_speed, seed)` from
`simulate_traffic.py`: calls `np.random.seed(seed)` and then
`np.random.normal(mean_speed, std_dev_speed, num_vehicles)`.  The global
generator state before the call (`state`) and the OS entropy consumed by
`seed(None)` (`entropy`) are passed explicitly. -/
def generate_speed_data (draw : ℕ → ℕ → ℚ) (state entropy : ℕ) (num_vehicles : ℕ)
    (mean_speed std_dev_speed : ℚ) (seed : Option ℕ) : List ℚ :=
  np_random_normal draw (np_random_seed seed entropy state)
    mean_speed std_dev_speed num_vehicles

/-- Python `str.strip()` whitespace test, for the ASCII whitespace characters
(space, tab, newline, carriage return, vertical tab, form feed). -/
def pySpace (c : Char) : Bool :=
  decide (c = ' ') || decide (c = '\t') || decide (c = '\n') || decide (c = '\r') ||
    decide (c = Char.ofNat 11) || decide (c = Char.ofNat 12)

/-- Python `str.strip()`: drop leading and trailing whitespace.  Inputs are
modelled as lists of characters. -/
def pyStrip (s : List Char) : List Char :=
  ((s.dropWhile pySpace).reverse.dropWhile pySpace).reverse

/-- Python `str.lower()`, characterwise. -/
def pyLower (s : List Char) : List Char :=
  s.map Char.toLower

/-- The interactive states of `main()` in `simulate_traffic.py`, one per
`input(...)` call site:

* `chooseSource` — the data-source menu at the top of `import_data` (the state
  `main` starts in and returns to on a full restart);
* `manualEntry` — the comma-separated speeds prompt of `import_data`;
* `outlierPrompt` — the yes/no outlier-removal prompt, carrying the collected
  sample;
* `selectPercentile` — the percentile menu, carrying the sample and the
  cleaned sample (the outlier decision already applied);
* `customPercentile` — the custom-percentile prompt reached from option 3;
* `report` — the computation/visualisation tail of `main`, carrying the data
  and the selected percentile. -/
inductive SessionState where
  | chooseSource
  | manualEntry
  | outlierPrompt (speeds : List ℚ)
  | selectPercentile (speeds cleaned : List ℚ)
  | customPercentile (speeds cleaned : List ℚ)
  | report (speeds cleaned : List ℚ) (nth : ℤ)
deriving DecidableEq

/-- One console interaction of `main()` / `import_data()`: from the current
state, consume one line of input and move to the next state, following the
source line by line:

* `import_data`: `"1"` simulates data (the simulated sample is the parameter
  `sim`), `"2"` goes to manual entry, anything else re-prompts; a parse
  failure in manual entry calls `import_data()` again (back to the menu);
* the outlier prompt runs `remove_outliers(speeds)` with the default
  threshold 3 only when the stripped, lowercased answer is exactly `"yes"`,
  otherwise proceeds with the original data;
* the percentile menu maps `"1"`/`"2"` to the 85/90 presets, `"3"` to the
  custom prompt, and anything else raises `ValueError`, caught by the
  handler that calls `main()` again — a full restart from `chooseSource`;
* the custom prompt parses an integer (`parseInt` models Python `int(...)`,
  `none` is a `ValueError`) and raises if it is outside `[0, 100]`; both
  failures land in the same handler and restart from `chooseSource`.

`parseFloats` models `list(map(float, input().split(",")))` of
`import_data`; the parsers are parameters because Python's numeric grammars
are third-party to this repository. -/
def sessionStep (sim : List ℚ) (parseFloats : List Char → Option (List ℚ))
    (parseInt : List Char → Option ℤ) :
    SessionState → List Char → SessionState
  | .chooseSource, inp =>
      if pyStrip inp = ['1'] then .outlierPrompt sim
      else if pyStrip inp = ['2'] then .manualEntry
      else .chooseSource
  | .manualEntry, inp =>
      match parseFloats inp with
      | some xs => .outlierPrompt xs
      | none => .chooseSource
  | .outlierPrompt speeds, inp =>
      if pyLower (pyStrip inp) = ['y', 'e', 's'] then
        .selectPercentile speeds (remove_outliers speeds 3).1
      else
        .selectPercentile speeds speeds
  | .selectPercentile speeds cleaned, inp =>
      if pyStrip inp = ['1'] then .report speeds cleaned 85
      else if pyStrip inp = ['2'] then .report speeds cleaned 90
      else if pyStrip inp = ['3'] then .customPercentile speeds cleaned
      else .chooseSource
  | .customPercentile speeds cleaned, inp =>
      match parseInt inp with
      | some k => if k < 0 ∨ 100 < k then .chooseSource else .report speeds cleaned k
      | none => .chooseSource
  | .report speeds cleaned nth, _ => .report speeds cleaned nth

end SpeedLimitFinder

namespace SpeedLimitFinder

/-- C1: the spec's zero-variance guard does not exist in the code.  On the
spec's own degenerate example `remove_outliers([5,5,5,5], 3)` the z-scores are
`0/0` (NaN), both mask comparisons are false, and the function returns BOTH
partitions empty — all four samples are silently dropped, instead of the
claimed `cleaned = [5,5,5,5]`, `removed = []`. -/
theorem remove_outliers_zero_variance_drops_all :
    remove_outliers [5, 5, 5, 5] 3 = ([], []) := by
  have hm : npMean [5, 5, 5, 5] = 5 := by norm_num [npMean]
  have hv : npVar [5, 5, 5, 5] = 0 := by norm_num [npVar, hm]
  simp [remove_outliers, hv, absZscoreLt, absZscoreGe]

/-- C4: `find_vehicles_above_threshold` is exactly the order-preserving
filter of the elements strictly greater than the threshold: the result is a
subsequence of the input, every kept element is `> threshold`, each value is
kept with its full multiplicity iff it is `> threshold`, and the length is the
count of elements above the threshold. -/
theorem find_vehicles_above_threshold_spec (speeds : List ℚ) (threshold : ℚ) :
    (find_vehicles_above_threshold speeds threshold).Sublist speeds ∧
    (∀ x ∈ find_vehicles_above_threshold speeds threshold, threshold < x) ∧
    (∀ x : ℚ, (find_vehicles_above_threshold speeds threshold).count x =
      if threshold < x then speeds.count x else 0) ∧
    (find_vehicles_above_threshold speeds threshold).length =
      speeds.countP (fun x => decide (threshold < x)) := by
  refine ⟨List.filter_sublist _, ?_, ?_, ?_⟩
  · intro x hx
    simpa using (List.mem_filter.mp hx).2
  · intro x
    by_cases h : threshold < x
    · rw [if_pos h]
      exact List.count_filter (by simpa using h)
    · rw [if_neg h]
      refine List.count_eq_zero.mpr fun hmem => h ?_
      simpa using (List.mem_filter.mp hmem).2
  · rw [List.countP_eq_length_filter]
    rfl

/-- The population variance is a mean of squares, hence nonnegative. -/
theorem npVar_nonneg (s : List ℚ) : 0 ≤ npVar s := by
  unfold npVar
  apply div_nonneg
  · apply List.sum_nonneg
    intro x hx
    simp only [List.mem_map] at hx
    obtain ⟨y, -, rfl⟩ := hx
    positivity
  · positivity

/-- When the variance is nonzero (no NaN z-scores), the two boolean masks of
`remove_outliers` are complementary. -/
theorem absZscoreLt_eq_not_ge (m v z x : ℚ) (hv : v ≠ 0) :
    absZscoreLt m v z x = !absZscoreGe m v z x := by
  by_cases hz : z ≤ 0
  · have hz2 : ¬ (0 < z) := not_lt.mpr hz
    simp [absZscoreLt, absZscoreGe, hv, hz, hz2]
  · have hz2 : 0 < z := not_le.mp hz
    by_cases hd : z ^ 2 * v ≤ (x - m) ^ 2
    · have hd2 : ¬ ((x - m) ^ 2 < z ^ 2 * v) := not_lt.mpr hd
      simp [absZscoreLt, absZscoreGe, hv, hz, hz2, hd, hd2]
    · have hd2 : (x - m) ^ 2 < z ^ 2 * v := not_le.mp hd
      simp [absZscoreLt, absZscoreGe, hv, hz, hz2, hd, hd2]

/-- The boolean mask `absZscoreGe` agrees with the real-number statement
`|x - m| / √v ≥ z` whenever the variance `v` is positive, so the squaring
encoding in the definition is faithful to the z-score formula. -/
theorem absZscoreGe_iff_real (m v z x : ℚ) (hv : 0 < v) :
    absZscoreGe m v z x = true ↔
      (z : ℝ) ≤ |(x : ℝ) - (m : ℝ)| / Real.sqrt (v : ℝ) := by
  have hvr : (0 : ℝ) < (v : ℝ) := by exact_mod_cast hv
  have hs : (0 : ℝ) < Real.sqrt (v : ℝ) := Real.sqrt_pos.mpr hvr
  rw [le_div_iff₀ hs]
  by_cases hz : z ≤ 0
  · constructor
    · intro _
      have h1 : (z : ℝ) * Real.sqrt (v : ℝ) ≤ 0 :=
        mul_nonpos_of_nonpos_of_nonneg (by exact_mod_cast hz) (Real.sqrt_nonneg _)
      exact h1.trans (abs_nonneg _)
    · intro _
      simp [absZscoreGe, hv.ne', hz]
  · have hz2 : 0 < z := not_le.mp hz
    have hzr : (0 : ℝ) ≤ (z : ℝ) * Real.sqrt (v : ℝ) := by positivity
    have hsq : ((z : ℝ) * Real.sqrt (v : ℝ)) ^ 2 = (z : ℝ) ^ 2 * (v : ℝ) := by
      rw [mul_pow, Real.sq_sqrt hvr.le]
    constructor
    · intro h
      have hd : z ^ 2 * v ≤ (x - m) ^ 2 := by
        simpa [absZscoreGe, hv.ne', hz] using h
      refine le_of_pow_le_pow_left₀ two_ne_zero (abs_nonneg _) ?_
      rw [hsq, sq_abs]
      exact_mod_cast hd
    · intro h
      have hd : ((z : ℝ) * Real.sqrt (v : ℝ)) ^ 2 ≤ |(x : ℝ) - (m : ℝ)| ^ 2 :=
        pow_le_pow_left₀ hzr h 2
      rw [hsq, sq_abs] at hd
      have hdq : z ^ 2 * v ≤ (x - m) ^ 2 := by exact_mod_cast hd
      simp [absZscoreGe, hv.ne', hdq]

/-- C5 (counterexample): `remove_outliers` performs no validation of the
Z-threshold.  Called with the non-positive threshold `0` on `[0, 2]` it does
not fail — it returns the pair `([], [0, 2])`, a genuine partition of the
input (every element is |z|-distance at least 0 from the mean). -/
theorem remove_outliers_nonpos_threshold_returns :
    remove_outliers [0, 2] 0 = ([], [0, 2]) ∧
      (remove_outliers [0, 2] 0).1 ++ (remove_outliers [0, 2] 0).2 = [0, 2] := by
  have hm : npMean [0, 2] = 1 := by norm_num [npMean]
  have hv : npVar [0, 2] = 1 := by norm_num [npVar, hm]
  constructor
  · simp [remove_outliers, hm, hv, absZscoreLt, absZscoreGe]
  · simp [remove_outliers, hm, hv, absZscoreLt, absZscoreGe]

/-- C5 (amended): `remove_outliers` does not reject a non-positive
`z_threshold`; instead, whenever the variance is nonzero, every sample is at
absolute z-score `≥ z` for `z ≤ 0`, so the call returns normally with
`cleaned = []` and `removed` the whole input. -/
theorem remove_outliers_nonpos_threshold (s : List ℚ) (z : ℚ)
    (hz : z ≤ 0) (hv : npVar s ≠ 0) :
    remove_outliers s z = ([], s) := by
  have hz2 : ¬ (0 < z) := not_lt.mpr hz
  have h1 : s.filter (fun x => absZscoreLt (npMean s) (npVar s) z x) = [] :=
    List.filter_eq_nil_iff.mpr fun x _ => by simp [absZscoreLt, hz2]
  have h2 : s.filter (fun x => absZscoreGe (npMean s) (npVar s) z x) = s :=
    List.filter_eq_self.mpr fun x _ => by simp [absZscoreGe, hv, hz]
  unfold remove_outliers
  rw [h1, h2]

/-- C5 (witness): the amended theorem applied at `s = [0, 4]`, `z = -1`. -/
theorem remove_outliers_nonpos_threshold_witness :
    (-1 : ℚ) ≤ 0 ∧ npVar [0, 4] ≠ 0 ∧ remove_outliers [0, 4] (-1) = ([], [0, 4]) :=
  ⟨by norm_num,
   by norm_num [npVar, npMean],
   remove_outliers_nonpos_threshold [0, 4] (-1) (by norm_num)
     (by norm_num [npVar, npMean])⟩

/-- C2 (counterexample): for the constant sample `[5, 5]` (population standard
deviation zero) the code's NaN z-scores put every element in NEITHER
partition, so `cleaned ++ removed` is empty and is not a permutation of the
input. -/
theorem remove_outliers_not_partition_zero_variance :
    ¬ ((remove_outliers [5, 5] 3).1 ++ (remove_outliers [5, 5] 3).2).Perm [5, 5] := by
  have hm : npMean [5, 5] = 5 := by norm_num [npMean]
  have hv : npVar [5, 5] = 0 := by norm_num [npVar, hm]
  intro h
  have hlen := h.length_eq
  simp [remove_outliers, hm, hv, absZscoreLt, absZscoreGe] at hlen

/-- C2 (amended): whenever the population variance of the sample is nonzero —
so that no NaN z-score arises — `remove_outliers` is a true partition:
`cleaned ++ removed` is a permutation of the input, each side is a subsequence
of the input (relative order preserved), the two sides are disjoint, every
removed element has absolute z-score `≥ z`, and no cleaned element does. -/
theorem remove_outliers_partition (s : List ℚ) (z : ℚ) (hv : npVar s ≠ 0) :
    ((remove_outliers s z).1 ++ (remove_outliers s z).2).Perm s ∧
    (remove_outliers s z).1.Sublist s ∧
    (remove_outliers s z).2.Sublist s ∧
    (∀ x, x ∈ (remove_outliers s z).1 → x ∉ (remove_outliers s z).2) ∧
    (∀ x ∈ (remove_outliers s z).2,
      (z : ℝ) ≤ |(x : ℝ) - (npMean s : ℝ)| / Real.sqrt (npVar s : ℝ)) ∧
    (∀ x ∈ (remove_outliers s z).1,
      ¬ ((z : ℝ) ≤ |(x : ℝ) - (npMean s : ℝ)| / Real.sqrt (npVar s : ℝ))) := by
  have hv0 : 0 < npVar s := lt_of_le_of_ne (npVar_nonneg s) (Ne.symm hv)
  have hcongr : s.filter (fun x => absZscoreLt (npMean s) (npVar s) z x) =
      s.filter (fun x => !absZscoreGe (npMean s) (npVar s) z x) :=
    List.filter_congr fun x _ => absZscoreLt_eq_not_ge _ _ _ _ hv
  simp only [remove_outliers]
  refine ⟨?_, List.filter_sublist _, List.filter_sublist _, ?_, ?_, ?_⟩
  · rw [hcongr]
    exact List.perm_append_comm.trans (List.filter_append_perm _ s)
  · intro x hx hx2
    have hb1 := (List.mem_filter.mp hx).2
    have hb2 := (List.mem_filter.mp hx2).2
    rw [absZscoreLt_eq_not_ge _ _ _ _ hv, hb2] at hb1
    exact absurd hb1 (by simp)
  · intro x hx
    exact (absZscoreGe_iff_real _ _ _ _ hv0).mp (List.mem_filter.mp hx).2
  · intro x hx hge
    have hb1 := (List.mem_filter.mp hx).2
    rw [absZscoreLt_eq_not_ge _ _ _ _ hv,
      (absZscoreGe_iff_real (npMean s) (npVar s) z x hv0).mpr hge] at hb1
    exact absurd hb1 (by simp)

/-- C2 (witness): the amended partition theorem applied at `s = [0, 2]`,
`z = 3`. -/
theorem remove_outliers_partition_witness :
    npVar [0, 2] ≠ 0 ∧
    (((remove_outliers [0, 2] 3).1 ++ (remove_outliers [0, 2] 3).2).Perm [0, 2] ∧
    (remove_outliers [0, 2] 3).1.Sublist [0, 2] ∧
    (remove_outliers [0, 2] 3).2.Sublist [0, 2] ∧
    (∀ x, x ∈ (remove_outliers [0, 2] 3).1 → x ∉ (remove_outliers [0, 2] 3).2) ∧
    (∀ x ∈ (remove_outliers [0, 2] 3).2,
      ((3 : ℚ) : ℝ) ≤ |(x : ℝ) - (npMean [0, 2] : ℝ)| / Real.sqrt (npVar [0, 2] : ℝ)) ∧
    (∀ x ∈ (remove_outliers [0, 2] 3).1,
      ¬ (((3 : ℚ) : ℝ) ≤ |(x : ℝ) - (npMean [0, 2] : ℝ)| / Real.sqrt (npVar [0, 2] : ℝ)))) :=
  ⟨by norm_num [npVar, npMean],
   remove_outliers_partition [0, 2] 3 (by norm_num [npVar, npMean])⟩

/-- A `getD` access inside the list bounds is a plain element access. -/
theorem getD_of_lt (a : List ℚ) {i : ℕ} (h : i < a.length) : a.getD i 0 = a[i] := by
  simp [List.getD_eq_getElem?_getD, List.getElem?_eq_getElem h]

/-- Elements of a `≤`-sorted list are monotone in the index, read through
`getD`. -/
theorem sorted_getD_mono (a : List ℚ) (ha : a.Sorted (· ≤ ·)) {i j : ℕ}
    (hij : i ≤ j) (hj : j < a.length) : a.getD i 0 ≤ a.getD j 0 := by
  have hi : i < a.length := lt_of_le_of_lt hij hj
  have h2 := ha.rel_get_of_le (show (⟨i, hi⟩ : Fin a.length) ≤ ⟨j, hj⟩ from hij)
  rw [getD_of_lt a hi, getD_of_lt a hj]
  simpa [List.get_eq_getElem] using h2

/-- Interpolating at an exact (natural) index returns that order statistic. -/
theorem interpAt_natCast (a : List ℚ) (k : ℕ) : interpAt a (k : ℚ) = a.getD k 0 := by
  simp [interpAt, Int.floor_natCast, Int.ceil_natCast]

/-- Linear interpolation between the order statistics of a sorted list is
monotone in the fractional index, over the index range `[0, length - 1]`. -/
theorem interpAt_mono (a : List ℚ) (ha : a.Sorted (· ≤ ·)) {x y : ℚ}
    (hx : 0 ≤ x) (hxy : x ≤ y) (hy : y ≤ (a.length : ℚ) - 1) :
    interpAt a x ≤ interpAt a y := by
  have h0y : 0 ≤ y := hx.trans hxy
  have hn1 : (1 : ℚ) ≤ (a.length : ℚ) := by linarith
  have hn : 1 ≤ a.length := by exact_mod_cast hn1
  have hfx0 : 0 ≤ ⌊x⌋ := Int.floor_nonneg.mpr hx
  have hfy0 : 0 ≤ ⌊y⌋ := Int.floor_nonneg.mpr h0y
  have hfcx : ⌊x⌋ ≤ ⌈x⌉ := Int.floor_le_ceil x
  have hfcy : ⌊y⌋ ≤ ⌈y⌉ := Int.floor_le_ceil y
  have hcyn : ⌈y⌉ ≤ (a.length : ℤ) - 1 := Int.ceil_le.mpr (by push_cast; linarith)
  have hcxcy : ⌈x⌉ ≤ ⌈y⌉ := Int.ceil_mono hxy
  have hfxfy : ⌊x⌋ ≤ ⌊y⌋ := Int.floor_mono hxy
  have hfrx0 : 0 ≤ x - ⌊x⌋ := by linarith [Int.floor_le x]
  have hfrx1 : x - ⌊x⌋ ≤ 1 := by linarith [Int.lt_floor_add_one x]
  have hfry0 : 0 ≤ y - ⌊y⌋ := by linarith [Int.floor_le y]
  by_cases hcase : ⌈x⌉ ≤ ⌊y⌋
  · have hdx : a.getD ⌊x⌋.toNat 0 ≤ a.getD ⌈x⌉.toNat 0 :=
      sorted_getD_mono a ha (by omega) (by omega)
    have h1 : interpAt a x ≤ a.getD ⌈x⌉.toNat 0 := by
      unfold interpAt
      have := mul_le_mul_of_nonneg_right hfrx1 (sub_nonneg.mpr hdx)
      linarith
    have h2 : a.getD ⌈x⌉.toNat 0 ≤ a.getD ⌊y⌋.toNat 0 :=
      sorted_getD_mono a ha (by omega) (by omega)
    have hdy : a.getD ⌊y⌋.toNat 0 ≤ a.getD ⌈y⌉.toNat 0 :=
      sorted_getD_mono a ha (by omega) (by omega)
    have h3 : a.getD ⌊y⌋.toNat 0 ≤ interpAt a y := by
      unfold interpAt
      have := mul_nonneg hfry0 (sub_nonneg.mpr hdy)
      linarith
    linarith
  · push_neg at hcase
    have hffeq : ⌊x⌋ = ⌊y⌋ := by
      have h2 := Int.ceil_le_floor_add_one x
      omega
    by_cases hxint : ⌈x⌉ = ⌊x⌋
    · omega
    · have hcx : ⌈x⌉ = ⌊x⌋ + 1 := by
        have h2 := Int.ceil_le_floor_add_one x
        omega
      by_cases hyint : ⌈y⌉ = ⌊y⌋
      · have hyv : y = (⌊y⌋ : ℚ) := by
          have h2 : y ≤ (⌈y⌉ : ℚ) := Int.le_ceil y
          rw [hyint] at h2
          linarith [Int.floor_le y]
        have hxv : x = y := by
          have h2 : (⌊x⌋ : ℚ) ≤ x := Int.floor_le x
          rw [hffeq] at h2
          have h3 : x ≤ (⌊y⌋ : ℚ) := hyv ▸ hxy
          rw [hyv]
          exact le_antisymm h3 h2
        rw [hxv]
      · have hcy : ⌈y⌉ = ⌊y⌋ + 1 := by
          have h2 := Int.ceil_le_floor_add_one y
          omega
        have hd : a.getD ⌊x⌋.toNat 0 ≤ a.getD (⌊x⌋ + 1).toNat 0 :=
          sorted_getD_mono a ha (by omega) (by omega)
        unfold interpAt
        rw [hcx, hcy, ← hffeq]
        exact add_le_add_left
          (mul_le_mul_of_nonneg_right (sub_le_sub_right hxy _)
            (sub_nonneg.mpr hd)) _

/-- On a valid input (`s` non-empty, `0 ≤ t ≤ 100`) `np_percentile` returns
the interpolated order statistic at fractional index `t (n-1) / 100`. -/
theorem np_percentile_ok (s : List ℚ) (hs : s ≠ []) (t : ℚ)
    (h0 : 0 ≤ t) (h1 : t ≤ 100) :
    np_percentile s t =
      .ok (interpAt (npSort s) (t * ((s.length : ℚ) - 1) / 100)) := by
  have hc1 : ¬ (t < 0 ∨ 100 < t) := by
    push_neg
    exact ⟨h0, h1⟩
  have hc2 : ¬ (s.isEmpty = true) := by simp [List.isEmpty_iff, hs]
  simp [np_percentile, hc1, hc2]

/-- C3: on its valid domain (non-empty sample, percentile in `[0, 100]`),
`calculate_percentile` at 0 returns the minimum of the sample, at 100 the
maximum, and it is monotonically non-decreasing in the percentile, under the
linear-interpolation-between-order-statistics definition. -/
theorem calculate_percentile_min_max_mono (s : List ℚ) (hs : s ≠ []) (p q : ℚ)
    (hp : 0 ≤ p) (hpq : p ≤ q) (hq : q ≤ 100) :
    (∃ lo, calculate_percentile s 0 = .ok lo ∧ lo ∈ s ∧ ∀ x ∈ s, lo ≤ x) ∧
    (∃ hi, calculate_percentile s 100 = .ok hi ∧ hi ∈ s ∧ ∀ x ∈ s, x ≤ hi) ∧
    (∃ vp vq, calculate_percentile s p = .ok vp ∧ calculate_percentile s q = .ok vq ∧
      vp ≤ vq) := by
  have hsorted : (npSort s).Sorted (· ≤ ·) := List.sorted_insertionSort _ s
  have hperm : (npSort s).Perm s := List.perm_insertionSort _ s
  have hlen : (npSort s).length = s.length := hperm.length_eq
  have hpos : 0 < s.length := List.length_pos.mpr hs
  have hys : 0 < (npSort s).length := by omega
  have hc1 : (0 : ℚ) ≤ (s.length : ℚ) - 1 := by
    have h2 : (1 : ℚ) ≤ (s.length : ℚ) := by exact_mod_cast hpos
    linarith
  refine ⟨⟨(npSort s).getD 0 0, ?_, ?_, ?_⟩,
         ⟨(npSort s).getD (s.length - 1) 0, ?_, ?_, ?_⟩,
         ⟨interpAt (npSort s) (p * ((s.length : ℚ) - 1) / 100),
          interpAt (npSort s) (q * ((s.length : ℚ) - 1) / 100), ?_, ?_, ?_⟩⟩
  · show np_percentile s 0 = _
    rw [np_percentile_ok s hs 0 le_rfl (by norm_num)]
    congr 1
    have h0 : (0 : ℚ) * ((s.length : ℚ) - 1) / 100 = ((0 : ℕ) : ℚ) := by norm_num
    rw [h0, interpAt_natCast]
  · rw [getD_of_lt _ hys]
    exact hperm.mem_iff.mp (List.getElem_mem _)
  · intro x hx
    obtain ⟨i, hi, rfl⟩ := List.getElem_of_mem (hperm.mem_iff.mpr hx)
    rw [← getD_of_lt _ hi]
    exact sorted_getD_mono _ hsorted (Nat.zero_le i) hi
  · show np_percentile s 100 = _
    rw [np_percentile_ok s hs 100 (by norm_num) le_rfl]
    congr 1
    have h0 : (100 : ℚ) * ((s.length : ℚ) - 1) / 100 = ((s.length - 1 : ℕ) : ℚ) := by
      rw [Nat.cast_sub (by omega : 1 ≤ s.length)]
      push_cast
      ring
    rw [h0, interpAt_natCast]
  · have hidx : s.length - 1 < (npSort s).length := by omega
    rw [getD_of_lt _ hidx]
    exact hperm.mem_iff.mp (List.getElem_mem _)
  · intro x hx
    obtain ⟨i, hi, rfl⟩ := List.getElem_of_mem (hperm.mem_iff.mpr hx)
    have hidx : s.length - 1 < (npSort s).length := by omega
    rw [← getD_of_lt _ hi]
    exact sorted_getD_mono _ hsorted (by omega) hidx
  · show np_percentile s p = _
    rw [np_percentile_ok s hs p hp (hpq.trans hq)]
  · show np_percentile s q = _
    rw [np_percentile_ok s hs q (hp.trans hpq) hq]
  · apply interpAt_mono _ hsorted
    · exact div_nonneg (mul_nonneg hp hc1) (by norm_num)
    · gcongr
    · rw [hlen, div_le_iff₀ (by norm_num : (0 : ℚ) < 100)]
      nlinarith [mul_le_mul_of_nonneg_right hq hc1]

/-- C3 (witness): the percentile theorem applied at `s = [3, 1]`, `p = 25`,
`q = 75`. -/
theorem calculate_percentile_min_max_mono_witness :
    ([3, 1] : List ℚ) ≠ [] ∧ (0 : ℚ) ≤ 25 ∧ (25 : ℚ) ≤ 75 ∧ (75 : ℚ) ≤ 100 ∧
    ((∃ lo, calculate_percentile [3, 1] 0 = .ok lo ∧ lo ∈ ([3, 1] : List ℚ) ∧
        ∀ x ∈ ([3, 1] : List ℚ), lo ≤ x) ∧
     (∃ hi, calculate_percentile [3, 1] 100 = .ok hi ∧ hi ∈ ([3, 1] : List ℚ) ∧
        ∀ x ∈ ([3, 1] : List ℚ), x ≤ hi) ∧
     (∃ vp vq, calculate_percentile [3, 1] 25 = .ok vp ∧
        calculate_percentile [3, 1] 75 = .ok vq ∧ vp ≤ vq)) :=
  ⟨by simp, by norm_num, by norm_num, by norm_num,
   calculate_percentile_min_max_mono [3, 1] (by simp) 25 75 (by norm_num) (by norm_num)
     (by norm_num)⟩

/-- C6: `calculate_percentile` (delegating to `np.percentile`) fails exactly
when the sample is empty or the percentile lies outside `[0, 100]`; on a
non-empty sample with a percentile in range it returns a value. -/
theorem calculate_percentile_error_iff (s : List ℚ) (t : ℚ) :
    (∃ e, calculate_percentile s t = .error e) ↔ (s = [] ∨ t < 0 ∨ 100 < t) := by
  simp only [calculate_percentile, np_percentile]
  by_cases h1 : t < 0 ∨ 100 < t
  · simp [h1]
  · by_cases h2 : s = []
    · simp [h1, h2]
    · simp [h1, h2, List.isEmpty_iff]

/-- C7: with an explicit seed, `generate_speed_data` is deterministic — two
calls with identical parameters and the same seed return identical sequences
regardless of the prior generator state or the OS entropy, because
`np.random.seed` overwrites the global state with a function of the seed
alone — and every call returns exactly `num_vehicles` values.  The theorem
holds for every deterministic variate stream `draw`. -/
theorem generate_speed_data_deterministic (draw : ℕ → ℕ → ℚ)
    (st1 st2 e1 e2 : ℕ) (n : ℕ) (mean std : ℚ) (sd : ℕ) :
    generate_speed_data draw st1 e1 n mean std (some sd) =
      generate_speed_data draw st2 e2 n mean std (some sd) ∧
    (generate_speed_data draw st1 e1 n mean std (some sd)).length = n := by
  constructor
  · rfl
  · simp [generate_speed_data, np_random_normal]

/-- C8: at the percentile menu, an invalid choice restarts the whole session
from the data-collection state, and so does an out-of-range (or unparsable)
custom percentile — the successor state is `chooseSource`, which carries no
sample and no outlier decision, not a re-prompt of the percentile step. -/
theorem percentile_selection_error_restarts (sim : List ℚ)
    (parseFloats : List Char → Option (List ℚ)) (parseInt : List Char → Option ℤ)
    (speeds cleaned : List ℚ) (inp1 inp2 : List Char)
    (h1 : pyStrip inp1 ≠ ['1'] ∧ pyStrip inp1 ≠ ['2'] ∧ pyStrip inp1 ≠ ['3'])
    (h2 : parseInt inp2 = none ∨
      ∃ k, parseInt inp2 = some k ∧ (k < 0 ∨ 100 < k)) :
    sessionStep sim parseFloats parseInt (.selectPercentile speeds cleaned) inp1 =
      .chooseSource ∧
    sessionStep sim parseFloats parseInt (.customPercentile speeds cleaned) inp2 =
      .chooseSource := by
  constructor
  · simp [sessionStep, h1.1, h1.2.1, h1.2.2]
  · rcases h2 with h | ⟨k, hk, hr⟩
    · simp [sessionStep, h]
    · simp [sessionStep, hk, hr]

/-- C8 (witness): the restart theorem applied with the invalid menu input
`"x"` and a failing integer parse. -/
theorem percentile_selection_error_restarts_witness :
    (pyStrip ['x'] ≠ ['1'] ∧ pyStrip ['x'] ≠ ['2'] ∧ pyStrip ['x'] ≠ ['3']) ∧
    ((fun _ : List Char => (none : Option ℤ)) ['x'] = none ∨
      ∃ k, (fun _ : List Char => (none : Option ℤ)) ['x'] = some k ∧ (k < 0 ∨ 100 < k)) ∧
    (sessionStep [] (fun _ => none) (fun _ => none)
        (.selectPercentile [1] [1]) ['x'] = .chooseSource ∧
     sessionStep [] (fun _ => none) (fun _ => none)
        (.customPercentile [1] [1]) ['x'] = .chooseSource) :=
  ⟨⟨by decide, by decide, by decide⟩, Or.inl rfl,
   percentile_selection_error_restarts [] (fun _ => none) (fun _ => none) [1] [1]
     ['x'] ['x'] ⟨by decide, by decide, by decide⟩ (Or.inl rfl)⟩

/-- C9: at the outlier prompt, any response whose stripped, lowercased form is
not exactly `"yes"` proceeds with the original data: the next state is the
percentile menu with `cleaned = speeds`, with no error and no re-prompt. -/
theorem outlier_prompt_default_declines (sim : List ℚ)
    (parseFloats : List Char → Option (List ℚ)) (parseInt : List Char → Option ℤ)
    (speeds : List ℚ) (inp : List Char)
    (h : pyLower (pyStrip inp) ≠ ['y', 'e', 's']) :
    sessionStep sim parseFloats parseInt (.outlierPrompt speeds) inp =
      .selectPercentile speeds speeds := by
  simp [sessionStep, h]

/-- C9 (witness): the decline theorem applied at the answer `"no"`. -/
theorem outlier_prompt_default_declines_witness :
    pyLower (pyStrip ['n', 'o']) ≠ ['y', 'e', 's'] ∧
    sessionStep [] (fun _ => none) (fun _ => none)
      (.outlierPrompt [7]) ['n', 'o'] = .selectPercentile [7] [7] :=
  ⟨by decide,
   outlier_prompt_default_declines [] (fun _ => none) (fun _ => none) [7]
     ['n', 'o'] (by decide)⟩

/-- C10: filtering above a threshold is idempotent — applying
`find_vehicles_above_threshold` twice with the same threshold equals applying
it once. -/
theorem find_vehicles_above_threshold_idempotent (speeds : List ℚ) (threshold : ℚ) :
    find_vehicles_above_threshold (find_vehicles_above_threshold speeds threshold) threshold =
      find_vehicles_above_threshold speeds threshold := by
  unfold find_vehicles_above_threshold
  rw [List.filter_filter]
  exact List.filter_congr fun x _ => Bool.and_self _

end SpeedLimitFinder
